import Mathlib

/-!
Shallow embedding of the client-side contact-manager logic in
`src/static/js/index.js`, together with proofs about its behaviour.

Pure string utilities (`isValidEmail`, `escapeHtml`, JS `trim`) are
embedded as functions on `List Char` / `String`; the mutable page state
(`contacts`, `selectedContactId`, `currentEmailList`, `originalContact`,
the name inputs and the pending email input) is embedded as an explicit
`AppState` record, and each event handler becomes a function from the
old state (plus environment inputs such as timestamps and server
responses) to the new state.
-/

namespace ContactApp

/-- Model of the JavaScript whitespace class used by `trim` and the
`\s` class of the email regex. -/
def isSpaceChar (c : Char) : Bool := c.isWhitespace

/-- A character admitted by the `[^\s@]` class of the email regex:
neither whitespace nor `'@'`. -/
def okChar (c : Char) : Bool := !(isSpaceChar c) && !(c == '@')

/-- JS `String.prototype.trim` on a list of characters: drop whitespace
from both ends. -/
def trimL (l : List Char) : List Char :=
  ((l.dropWhile isSpaceChar).reverse.dropWhile isSpaceChar).reverse

/-- JS `String.prototype.trim`. -/
def trimS (s : String) : String := ⟨trimL s.data⟩

/-- Split a character list at the first occurrence of `c`, returning the
parts before and after it. -/
def splitAtChar (c : Char) : List Char → Option (List Char × List Char)
  | [] => none
  | x :: xs =>
    if x = c then some ([], xs)
    else
      match splitAtChar c xs with
      | none => none
      | some (b, a) => some (x :: b, a)

/-- `isValidEmail` from index.js, lines 249-252: the anchored regex
`^[^\s@]+@[^\s@]+\.[^\s@]+$` on a list of characters.  The string must
split at a (necessarily unique) `'@'` into a non-empty all-`okChar`
local part and an all-`okChar` domain part containing a `'.'` that is
neither its first nor its last character. -/
def isValidEmailL (l : List Char) : Bool :=
  match splitAtChar '@' l with
  | none => false
  | some (pre, post) =>
    !pre.isEmpty && pre.all okChar && post.all okChar &&
      ((post.drop 1).dropLast.contains '.')

/-- `isValidEmail` from index.js, lines 249-252. -/
def isValidEmail (s : String) : Bool := isValidEmailL s.data

/-- Modelled from the spec's words (§4.1): the claimed shape of a valid
email — one or more characters that are neither whitespace nor `'@'`,
then `'@'`, then one or more such characters, then `'.'`, then one or
more such characters. -/
def EmailShape (l : List Char) : Prop :=
  ∃ a b c : List Char, a ≠ [] ∧ b ≠ [] ∧ c ≠ [] ∧
    (∀ x ∈ a, okChar x = true) ∧ (∀ x ∈ b, okChar x = true) ∧
    (∀ x ∈ c, okChar x = true) ∧ l = a ++ '@' :: (b ++ '.' :: c)

/-! ## Data model -/

/-- An email entry of the draft's committed email list: a locally minted
id (from `Date.now()`, modelled as a natural number) and the email
string. -/
structure EmailEntry where
  id : Nat
  email : String
  deriving DecidableEq, Repr

/-- A contact as exchanged with the server: `id` is absent (`none`) for
an unsaved new contact. -/
structure Contact where
  id : Option Nat
  firstName : String
  lastName : String
  emails : List EmailEntry
  deriving DecidableEq, Repr

/-- The pristine snapshot stored in `originalContact` by `selectContact`
(index.js lines 171-175): `{firstName, lastName, emails}`. -/
structure Pristine where
  firstName : String
  lastName : String
  emails : List EmailEntry
  deriving DecidableEq, Repr

/-- The page's mutable state (index.js lines 1-8) together with the
observable values of the form's DOM inputs: `firstNameVal` and
`lastNameVal` are the name inputs' current values, and
`pendingEmailText` is the value of the staged email input inside
`#emailList` (`""` when no such input is present). -/
structure AppState where
  contacts : List Contact
  selectedContactId : Option Nat
  isAddingEmail : Bool
  isNewContact : Bool
  currentEmailList : List EmailEntry
  originalContact : Option Pristine
  searchQuery : String
  firstNameVal : String
  lastNameVal : String
  pendingEmailText : String
  deriving DecidableEq, Repr

/-! ## Change detection -/

/-- `checkForChanges` (index.js lines 190-217), as the boolean it stores
in `!saveBtn.disabled` (the enable-save result).  The unsaved email is
the trimmed value of the staged input; for a new contact
(`originalContact` null) any data at all enables save, for an existing
contact the trimmed name inputs and the ordered email-string lists are
compared against the snapshot. -/
def checkForChanges (s : AppState) : Bool :=
  let unsavedEmail := trimS s.pendingEmailText
  let hasUnsavedValidEmail := !(unsavedEmail == "") && isValidEmail unsavedEmail
  match s.originalContact with
  | none =>
    !(trimS s.firstNameVal == "") || !(trimS s.lastNameVal == "") ||
      decide (0 < s.currentEmailList.length) || hasUnsavedValidEmail
  | some o =>
    !(trimS s.firstNameVal == o.firstName) ||
      !(trimS s.lastNameVal == o.lastName) ||
      !(s.currentEmailList.map EmailEntry.email == o.emails.map EmailEntry.email) ||
      hasUnsavedValidEmail

/-! ## Draft-store operations -/

/-- `selectContact` (index.js lines 169-188): record the selection, take
the pristine snapshot, copy the fields into the form, reset the
adding-email mode (which clears any staged email input from the DOM). -/
def selectContact (s : AppState) (c : Contact) : AppState :=
  { s with
    selectedContactId := c.id
    originalContact := some ⟨c.firstName, c.lastName, c.emails⟩
    firstNameVal := c.firstName
    lastNameVal := c.lastName
    currentEmailList := c.emails
    isAddingEmail := false
    pendingEmailText := "" }

/-- `clearForm` (index.js lines 219-236): back to the nothing-selected
state; the fetched contact list and the search query are untouched. -/
def clearForm (s : AppState) : AppState :=
  { s with
    selectedContactId := none
    isNewContact := false
    firstNameVal := ""
    lastNameVal := ""
    currentEmailList := []
    isAddingEmail := false
    originalContact := none
    pendingEmailText := "" }

/-- `getFormData` (index.js lines 254-261): the submitted payload.  The
`id` field is present exactly when `selectedContactId` is; names are
trimmed; emails are the committed list as-is (no auto-commit of the
pending text). -/
def getFormData (s : AppState) : Contact :=
  { id := s.selectedContactId
    firstName := trimS s.firstNameVal
    lastName := trimS s.lastNameVal
    emails := s.currentEmailList }

/-! ## Sync controller

Network calls are embedded by passing the environment's response as an
explicit argument: a successful request carries the server's data, a
non-2xx response carries the optional `error` field of its JSON body,
and a network failure carries the thrown error's message. -/

/-- Outcome of the `fetch` issued by `saveContact`. -/
inductive SaveResponse where
  /-- 2xx: the server-returned contact, and the list obtained by the
  subsequent `fetchContacts` refetch. -/
  | ok (returned : Contact) (newList : List Contact)
  /-- non-2xx: the optional `error` field of the response body. -/
  | httpErr (errField : Option String)
  /-- rejected fetch: the thrown error's message. -/
  | netErr (msg : String)
  deriving DecidableEq, Repr

/-- Outcome of the `fetch` issued by `deleteContact`. -/
inductive DeleteResponse where
  /-- 2xx, with the list obtained by the subsequent refetch. -/
  | ok (newList : List Contact)
  /-- non-2xx: the optional `error` field of the response body
  (ignored by the code). -/
  | httpErr (errField : Option String)
  /-- rejected fetch: the thrown error's message. -/
  | netErr (msg : String)
  deriving DecidableEq, Repr

/-- The HTTP request submitted by `saveContact` (index.js lines 35-47):
`PUT /api/contacts/{id}` when the payload's `id` is truthy, else
`POST /api/contacts`, with the payload as JSON body. -/
structure Request where
  isPut : Bool
  urlId : Option Nat
  payload : Contact
  deriving DecidableEq, Repr

/-- The implicit commit done at the top of the save-button handler
(index.js lines 313-319): if there is a staged email input whose
trimmed value is non-empty and valid, push it onto `currentEmailList`
with a fresh `Date.now()` id (the `now` argument).  Nothing else of the
state changes. -/
def commitPending (now : Nat) (s : AppState) : AppState :=
  let email := trimS s.pendingEmailText
  if !(email == "") && isValidEmail email then
    { s with currentEmailList := s.currentEmailList ++ [⟨now, email⟩] }
  else s

/-- The save-button click handler together with `saveContact`
(index.js lines 309-323 and 35-61): commit the pending email, build the
payload, submit; on success refetch the list and re-select the returned
contact, on failure alert the best message and leave the state as
submitted.  Returns the new state, the alert message (if any), and the
submitted request. -/
def saveClick (now : Nat) (s : AppState) (resp : SaveResponse) :
    AppState × Option String × Request :=
  let s1 := commitPending now s
  let payload := getFormData s1
  let req : Request := ⟨payload.id.isSome, payload.id, payload⟩
  match resp with
  | SaveResponse.ok returned newList =>
    (selectContact { s1 with contacts := newList } returned, none, req)
  | SaveResponse.httpErr errField =>
    (s1, some (errField.getD "Failed to save contact"), req)
  | SaveResponse.netErr msg =>
    (s1, some msg, req)

/-- The delete-button click handler together with `deleteContact`
(index.js lines 326-331 and 63-83): ignore the click when nothing is
selected; otherwise ask for confirmation (`confirmAccepted` is the
user's answer) and stop when declined; on a successful DELETE refetch
the list and clear the form; on a non-2xx response alert the fixed
string `"Failed to delete contact"` (the body's `error` field is never
read); on a network failure alert the thrown message.  Returns the new
state, the alert message, and the id the DELETE was issued for
(`none` when no request was sent). -/
def deleteClick (s : AppState) (confirmAccepted : Bool)
    (resp : DeleteResponse) : AppState × Option String × Option Nat :=
  match s.selectedContactId with
  | none => (s, none, none)
  | some cid =>
    if !confirmAccepted then (s, none, none)
    else
      match resp with
      | DeleteResponse.ok newList =>
        (clearForm { s with contacts := newList }, none, some cid)
      | DeleteResponse.httpErr _ =>
        (s, some "Failed to delete contact", some cid)
      | DeleteResponse.netErr msg =>
        (s, some msg, some cid)

/-- `fetchContacts` (index.js lines 25-33): on success replace the
in-memory list, on failure (`none`) log only and change nothing. -/
def fetchContacts (s : AppState) (resp : Option (List Contact)) : AppState :=
  match resp with
  | some newList => { s with contacts := newList }
  | none => s

/-! ## Email-list operations -/

/-- The per-row delete handler installed by `renderEmailList`
(index.js lines 120-126): `currentEmailList.splice(index, 1)` — removal
of the entry at the clicked row's render-time position.  JS `splice`
with a start at or past the end removes nothing. -/
def removeEmailAt (l : List EmailEntry) (i : Nat) : List EmailEntry :=
  l.take i ++ l.drop (i + 1)

/-- The Enter handler of the staged email input (index.js lines
143-157) as its effect on the committed list: when the trimmed text is
non-empty and valid, push `{id: Date.now(), email}`. -/
def addEmail (l : List EmailEntry) (now : Nat) (email : String) : List EmailEntry :=
  l ++ [⟨now, email⟩]

/-- Modelled from the spec's words for comparison (§4.2:
`removeEmail(localId)` "removes matching entry; no-op if absent"):
removal by exact match on the local id, deleting the first entry whose
id matches. -/
def removeEmailById (l : List EmailEntry) (localId : Nat) : List EmailEntry :=
  l.eraseP (fun e => e.id == localId)

/-- The operations that touch the draft's committed email list, with
every environment input (loaded data, `Date.now()` values, typed text,
clicked row) explicit. -/
inductive EmailOp where
  /-- `selectContact`'s `currentEmailList = [...contact.emails]`. -/
  | select (loaded : List EmailEntry)
  /-- Enter in the staged input (index.js lines 143-157): `now` is the
  `Date.now()` value, `text` the input's value. -/
  | enterCommit (now : Nat) (text : String)
  /-- The save-button handler's implicit commit (index.js lines
  313-319). -/
  | saveCommit (now : Nat) (text : String)
  /-- A click on row `i`'s delete button (index.js lines 120-126). -/
  | removeAt (i : Nat)
  deriving DecidableEq, Repr

/-- The common body of the Enter handler and the save handler's
implicit commit: trim the typed text and, when it is non-empty and
valid, push `{id: Date.now(), email}`. -/
def commitText (l : List EmailEntry) (now : Nat) (text : String) :
    List EmailEntry :=
  let email := trimS text
  if !(email == "") && isValidEmail email then addEmail l now email else l

/-- One operation's effect on the committed email list. -/
def stepEmail (l : List EmailEntry) : EmailOp → List EmailEntry
  | EmailOp.select loaded => loaded
  | EmailOp.enterCommit now text => commitText l now text
  | EmailOp.saveCommit now text => commitText l now text
  | EmailOp.removeAt i => removeEmailAt l i

/-- Run a sequence of email-list operations from a starting list. -/
def runEmail (l : List EmailEntry) (ops : List EmailOp) : List EmailEntry :=
  ops.foldl stepEmail l

/-- The email ids of a list are pairwise distinct. -/
def nodupIds (l : List EmailEntry) : Prop := (l.map EmailEntry.id).Nodup

instance (l : List EmailEntry) : Decidable (nodupIds l) := by
  unfold nodupIds; infer_instance

/-- Well-timed operation sequences: each commit happens at a
`Date.now()` value no earlier than the running clock and advances it,
and each selected contact's emails carry pairwise-distinct ids minted
before the current clock.  This holds of real timelines in which
successive `Date.now()` readings strictly increase. -/
def opsOk (t : Nat) : List EmailOp → Bool
  | [] => true
  | EmailOp.select loaded :: rest =>
    decide (nodupIds loaded) && loaded.all (fun e => e.id < t) && opsOk t rest
  | EmailOp.enterCommit now _ :: rest => t ≤ now && opsOk (now + 1) rest
  | EmailOp.saveCommit now _ :: rest => t ≤ now && opsOk (now + 1) rest
  | EmailOp.removeAt _ :: rest => opsOk t rest

/-! ## List filter and sort -/

/-- JS `String.prototype.toLowerCase`, per character. -/
def lowerS (s : String) : String := ⟨s.data.map Char.toLower⟩

/-- Does `hay` start with `needle`? -/
def startsWithL (hay needle : List Char) : Bool :=
  match needle, hay with
  | [], _ => true
  | _ :: _, [] => false
  | n :: ns, h :: hs => n == h && startsWithL hs ns

/-- Does `hay` contain `needle` as a contiguous run? -/
def hasInfixL (hay needle : List Char) : Bool :=
  startsWithL hay needle ||
    match hay with
    | [] => false
    | _ :: hs => hasInfixL hs needle

/-- JS `String.prototype.includes`: substring containment. -/
def includesS (hay needle : String) : Bool := hasInfixL hay.data needle.data

/-- The body of `filterContacts`'s predicate (index.js lines 275-281):
the lowercased "firstName lastName" concatenation contains the
lowercased query, or some email, lowercased, contains it. -/
def matchesQuery (query : String) (c : Contact) : Bool :=
  let q := lowerS query
  includesS (lowerS (c.firstName ++ " " ++ c.lastName)) q ||
    c.emails.any (fun e => includesS (lowerS e.email) q)

/-- `filterContacts` (index.js lines 271-282): falsy (empty) query is a
passthrough, otherwise keep the matching contacts. -/
def filterContacts (contacts : List Contact) (query : String) : List Contact :=
  if query == "" then contacts else contacts.filter (matchesQuery query)

/-- Insert into a sorted list in front of the first element the
comparator does not place after `x` — the inner step of a stable
comparison sort, modelling `Array.prototype.sort`'s contract. -/
def insertLe (le : Contact → Contact → Bool) (x : Contact) :
    List Contact → List Contact
  | [] => [x]
  | y :: ys => if le x y then x :: y :: ys else y :: insertLe le x ys

/-- A stable comparison sort, modelling the
`[...filteredContacts].sort((a, b) => a.lastName.localeCompare(b.lastName))`
call of `renderContactsList` (index.js lines 90-92); `le a b` models
`a.lastName.localeCompare(b.lastName) <= 0`. -/
def sortContacts (le : Contact → Contact → Bool) :
    List Contact → List Contact
  | [] => []
  | x :: xs => insertLe le x (sortContacts le xs)

/-- The visible-contact derivation of `renderContactsList`
(index.js lines 89-92): filter by the query, then sort a copy by
`lastName` under the locale comparator `le`. -/
def visibleContacts (le : String → String → Bool) (contacts : List Contact)
    (query : String) : List Contact :=
  sortContacts (fun a b => le a.lastName b.lastName) (filterContacts contacts query)

/-- A concrete stand-in for `localeCompare`'s order on the example
strings: code-point lexicographic order on the characters. -/
def lexLe : List Char → List Char → Bool
  | [], _ => true
  | _ :: _, [] => false
  | a :: as, b :: bs =>
    if a.val < b.val then true
    else if b.val < a.val then false
    else lexLe as bs

/-- Code-point lexicographic order on strings, a concrete locale
comparator for evaluating examples. -/
def lexLeS (a b : String) : Bool := lexLe a.data b.data

/-! ## HTML escaping -/

/-- JS `String.prototype.replace(/c/g, rep)` for a single character
pattern: replace every occurrence of `c` by the list `rep`. -/
def replaceAllC (c : Char) (rep : List Char) (l : List Char) : List Char :=
  l.flatMap (fun x => if x = c then rep else [x])

/-- `escapeHtml` (index.js lines 240-247) on a list of characters: five
sequential global replacements, ampersand first. -/
def escapeHtmlL (l : List Char) : List Char :=
  replaceAllC '\'' "&#039;".data
    (replaceAllC '"' "&quot;".data
      (replaceAllC '>' "&gt;".data
        (replaceAllC '<' "&lt;".data
          (replaceAllC '&' "&amp;".data l))))

/-- `escapeHtml` (index.js lines 240-247). -/
def escapeHtml (s : String) : String := ⟨escapeHtmlL s.data⟩

/-- The per-character entity table `escapeHtml` implements: each of the
five metacharacters maps to its HTML entity, every other character to
itself. -/
def entityOf (x : Char) : List Char :=
  if x = '&' then "&amp;".data
  else if x = '<' then "&lt;".data
  else if x = '>' then "&gt;".data
  else if x = '"' then "&quot;".data
  else if x = '\'' then "&#039;".data
  else [x]

/-! ## Spec-worded predicates, for comparison with the code -/

/-- Modelled from the spec's words for comparison (§4.3 and claim C1):
the claimed enable-save characterization, in which the pending email
text itself — not its trimmed value — must be non-empty and pass the
Validator. -/
def claimedHasChanges (s : AppState) : Bool :=
  let pendingOk := !(s.pendingEmailText == "") && isValidEmail s.pendingEmailText
  match s.originalContact with
  | none =>
    !(trimS s.firstNameVal == "") || !(trimS s.lastNameVal == "") ||
      decide (0 < s.currentEmailList.length) || pendingOk
  | some o =>
    !(trimS s.firstNameVal == o.firstName) ||
      !(trimS s.lastNameVal == o.lastName) ||
      !(s.currentEmailList.map EmailEntry.email == o.emails.map EmailEntry.email) ||
      pendingOk

/-- A convenient base state: the freshly initialized page (all lists
empty, nothing selected). -/
def initialState : AppState :=
  { contacts := []
    selectedContactId := none
    isAddingEmail := false
    isNewContact := false
    currentEmailList := []
    originalContact := none
    searchQuery := ""
    firstNameVal := ""
    lastNameVal := ""
    pendingEmailText := "" }

/-- The state reached by editing an existing contact's form and then
reverting every field back to the pristine snapshot `o`: the inputs
hold the snapshot's values, the committed list is the snapshot's list,
and the staged email text is empty again. -/
def revertedState (s : AppState) (o : Pristine) : AppState :=
  { s with
    originalContact := some o
    firstNameVal := o.firstName
    lastNameVal := o.lastName
    currentEmailList := o.emails
    pendingEmailText := "" }

/-! ## Helper lemmas -/

theorem splitAtChar_eq (c : Char) :
    ∀ (l pre post : List Char), splitAtChar c l = some (pre, post) →
      l = pre ++ c :: post ∧ c ∉ pre := by
  intro l
  induction l with
  | nil => intro pre post h; simp [splitAtChar] at h
  | cons x xs ih =>
    intro pre post h
    by_cases hx : x = c
    · rw [splitAtChar, if_pos hx] at h
      injection h with h
      simp only [Prod.mk.injEq] at h
      obtain ⟨h1, h2⟩ := h
      subst h1; subst h2; subst hx
      exact ⟨rfl, List.not_mem_nil x⟩
    · rw [splitAtChar, if_neg hx] at h
      cases hs : splitAtChar c xs with
      | none => rw [hs] at h; exact absurd h (by simp)
      | some pr =>
        obtain ⟨b, a⟩ := pr
        rw [hs] at h
        injection h with h
        simp only [Prod.mk.injEq] at h
        obtain ⟨h1, h2⟩ := h
        subst h1; subst h2
        obtain ⟨hxs, hnot⟩ := ih b a hs
        constructor
        · rw [hxs]; rfl
        · intro hmem
          rcases List.mem_cons.mp hmem with h | h
          · exact hx h.symm
          · exact hnot h

theorem splitAtChar_of_notMem (c : Char) :
    ∀ (a r : List Char), c ∉ a → splitAtChar c (a ++ c :: r) = some (a, r) := by
  intro a
  induction a with
  | nil => intro r _; simp [splitAtChar]
  | cons x xs ih =>
    intro r hmem
    have hx : ¬ x = c := by
      intro h; exact hmem (by rw [h]; exact List.mem_cons_self c xs)
    rw [List.cons_append, splitAtChar, if_neg hx,
      ih r (fun hc => hmem (List.mem_cons_of_mem x hc))]

theorem isValidEmailL_iff_shape (l : List Char) :
    isValidEmailL l = true ↔ EmailShape l := by
  constructor
  · intro h
    unfold isValidEmailL at h
    cases hs : splitAtChar '@' l with
    | none => rw [hs] at h; exact absurd h (by simp)
    | some pr =>
      obtain ⟨pre, post⟩ := pr
      rw [hs] at h
      simp only [Bool.and_eq_true] at h
      obtain ⟨⟨⟨hne, hpreok⟩, hpostok⟩, hdot⟩ := h
      obtain ⟨hl, hnotmem⟩ := splitAtChar_eq '@' l pre post hs
      have hdotmem : '.' ∈ (post.drop 1).dropLast := List.elem_iff.mp hdot
      cases post with
      | nil => simp at hdotmem
      | cons p ptail =>
        simp only [List.drop_succ_cons, List.drop_zero] at hdotmem
        have hpt : ptail ≠ [] := by
          intro h0; rw [h0] at hdotmem; simp at hdotmem
        obtain ⟨u, v, huv⟩ := List.append_of_mem hdotmem
        obtain ⟨z, hz⟩ : ∃ z, ptail.dropLast ++ [z] = ptail :=
          ⟨ptail.getLast hpt, List.dropLast_concat_getLast hpt⟩
        have hpostall : ∀ x ∈ p :: ptail, okChar x = true :=
          List.all_eq_true.mp hpostok
        have hmemdl : ∀ x ∈ ptail.dropLast, x ∈ ptail := by
          intro x hxm
          rw [← hz]; exact List.mem_append_left _ hxm
        have hpt2 : ptail = (u ++ '.' :: v) ++ [z] := by
          rw [← huv]; exact hz.symm
        refine ⟨pre, p :: u, v ++ [z], ?_, by simp, by simp,
          List.all_eq_true.mp hpreok, ?_, ?_, ?_⟩
        · intro h0; rw [h0] at hne; simp at hne
        · intro x hxm
          rcases List.mem_cons.mp hxm with h | h
          · exact hpostall x (h ▸ List.mem_cons_self p ptail)
          · refine hpostall x (List.mem_cons_of_mem p (hmemdl x ?_))
            rw [huv]; exact List.mem_append_left _ h
        · intro x hxm
          rcases List.mem_append.mp hxm with h | h
          · refine hpostall x (List.mem_cons_of_mem p (hmemdl x ?_))
            rw [huv]; exact List.mem_append_right _ (List.mem_cons_of_mem _ h)
          · have hxz : x = z := by simpa using h
            refine hpostall x (List.mem_cons_of_mem p ?_)
            rw [hxz, ← hz]
            exact List.mem_append_right _ (List.mem_cons_self z [])
        · rw [hl, hpt2]
          simp
  · rintro ⟨a, b, c, ha, hb, hc, haok, hbok, hcok, hl⟩
    have hna : '@' ∉ a := by
      intro hmem
      have := haok '@' hmem
      simp [okChar] at this
    unfold isValidEmailL
    rw [hl, splitAtChar_of_notMem '@' a _ hna]
    simp only [Bool.and_eq_true]
    refine ⟨⟨⟨?_, List.all_eq_true.mpr haok⟩, ?_⟩, ?_⟩
    · cases a with
      | nil => exact absurd rfl ha
      | cons x xs => simp
    · refine List.all_eq_true.mpr ?_
      intro x hxm
      rcases List.mem_append.mp hxm with h | h
      · exact hbok x h
      · rcases List.mem_cons.mp h with h | h
        · rw [h]; decide
        · exact hcok x h
    · cases b with
      | nil => exact absurd rfl hb
      | cons b0 bs =>
        cases c with
        | nil => exact absurd rfl hc
        | cons c0 cs =>
          refine List.elem_iff.mpr ?_
          simp only [List.cons_append, List.drop_succ_cons, List.drop_zero]
          rw [List.dropLast_append_cons]
          exact List.mem_append_right _ (by simp [List.dropLast])

theorem dropWhile_space_eq_self {l : List Char}
    (h : ∀ c ∈ l, isSpaceChar c = false) : l.dropWhile isSpaceChar = l := by
  cases l with
  | nil => rfl
  | cons x xs =>
    rw [List.dropWhile_cons, h x (List.mem_cons_self x xs)]
    simp

theorem trimL_eq_self {l : List Char}
    (h : ∀ c ∈ l, isSpaceChar c = false) : trimL l = l := by
  unfold trimL
  rw [dropWhile_space_eq_self h,
    dropWhile_space_eq_self (fun c hc => h c (List.mem_reverse.mp hc)),
    List.reverse_reverse]

theorem okChar_not_space {x : Char} (h : okChar x = true) :
    isSpaceChar x = false := by
  unfold okChar at h
  rw [Bool.and_eq_true] at h
  simpa using h.1

theorem isValidEmail_no_space {s : String} (h : isValidEmail s = true) :
    ∀ c ∈ s.data, isSpaceChar c = false := by
  obtain ⟨a, b, c, _, _, _, haok, hbok, hcok, hl⟩ :=
    (isValidEmailL_iff_shape s.data).mp h
  intro x hx
  rw [hl] at hx
  rcases List.mem_append.mp hx with hm | hm
  · exact okChar_not_space (haok x hm)
  · rcases List.mem_cons.mp hm with hm | hm
    · rw [hm]; decide
    · rcases List.mem_append.mp hm with hm | hm
      · exact okChar_not_space (hbok x hm)
      · rcases List.mem_cons.mp hm with hm | hm
        · rw [hm]; decide
        · exact okChar_not_space (hcok x hm)

theorem isValidEmail_trim {s : String} (h : isValidEmail s = true) :
    trimS s = s := by
  unfold trimS
  rw [trimL_eq_self (isValidEmail_no_space h)]

/-! ## Claim C4 -/

/-- C4: `isValidEmail(s)` is true iff `s` consists of one or more
characters that are neither whitespace nor `'@'`, then `'@'`, then one
or more such characters, then `'.'`, then one or more such characters
(a total function of the string); in particular
`isValidEmail("a@b.co") = true`, `isValidEmail("a@b") = false`,
`isValidEmail("a b@c.d") = false`, and `isValidEmail("") = false`. -/
theorem C4_isValidEmail_characterization :
    (∀ s : String, isValidEmail s = true ↔ EmailShape s.data) ∧
    isValidEmail "a@b.co" = true ∧ isValidEmail "a@b" = false ∧
    isValidEmail "a b@c.d" = false ∧ isValidEmail "" = false :=
  ⟨fun s => isValidEmailL_iff_shape s.data,
    by decide, by decide, by decide, by decide⟩

/-- Witness for C4: the characterization applied at the concrete string
`"a@b.co"`. -/
theorem C4_isValidEmail_characterization_witness : EmailShape "a@b.co".data :=
  (C4_isValidEmail_characterization.1 "a@b.co").mp (by decide)

/-! ## Claim C8 -/

/-- C8: a successful list refresh replaces the in-memory contact list
and leaves the draft, pristine snapshot and selection state unchanged;
a failed refresh changes nothing at all. -/
theorem C8_refresh_frame :
    ∀ (s : AppState) (newList : List Contact),
      (fetchContacts s (some newList)).contacts = newList ∧
      (fetchContacts s (some newList)).selectedContactId = s.selectedContactId ∧
      (fetchContacts s (some newList)).originalContact = s.originalContact ∧
      (fetchContacts s (some newList)).currentEmailList = s.currentEmailList ∧
      (fetchContacts s (some newList)).firstNameVal = s.firstNameVal ∧
      (fetchContacts s (some newList)).lastNameVal = s.lastNameVal ∧
      (fetchContacts s (some newList)).pendingEmailText = s.pendingEmailText ∧
      (fetchContacts s (some newList)).isNewContact = s.isNewContact ∧
      (fetchContacts s (some newList)).isAddingEmail = s.isAddingEmail ∧
      (fetchContacts s (some newList)).searchQuery = s.searchQuery ∧
      fetchContacts s none = s :=
  fun _ _ => ⟨rfl, rfl, rfl, rfl, rfl, rfl, rfl, rfl, rfl, rfl, rfl⟩

/-! ## Claim C10 -/

theorem replaceAllC_append (c : Char) (rep : List Char) (a b : List Char) :
    replaceAllC c rep (a ++ b) = replaceAllC c rep a ++ replaceAllC c rep b := by
  unfold replaceAllC
  exact List.flatMap_append a b _

theorem escapeHtmlL_append (a b : List Char) :
    escapeHtmlL (a ++ b) = escapeHtmlL a ++ escapeHtmlL b := by
  unfold escapeHtmlL
  rw [replaceAllC_append, replaceAllC_append, replaceAllC_append,
    replaceAllC_append, replaceAllC_append]

theorem escapeHtmlL_single (x : Char) : escapeHtmlL [x] = entityOf x := by
  by_cases h1 : x = '&'
  · subst h1; decide
  by_cases h2 : x = '<'
  · subst h2; decide
  by_cases h3 : x = '>'
  · subst h3; decide
  by_cases h4 : x = '"'
  · subst h4; decide
  by_cases h5 : x = '\''
  · subst h5; decide
  simp [escapeHtmlL, replaceAllC, entityOf, h1, h2, h3, h4, h5]

theorem escapeHtmlL_eq_flatMap (l : List Char) :
    escapeHtmlL l = l.flatMap entityOf := by
  induction l with
  | nil => decide
  | cons x xs ih =>
    have hx : x :: xs = [x] ++ xs := rfl
    rw [hx, escapeHtmlL_append, escapeHtmlL_single, ih, List.flatMap_append]
    simp [List.flatMap_cons]

theorem entityOf_no_special (y : Char) :
    ∀ x ∈ entityOf y,
      (!(x == '<') && !(x == '>') && !(x == '"') && !(x == '\'')) = true := by
  intro x hx
  by_cases h1 : y = '&'
  · subst h1; simp only [entityOf, if_pos rfl] at hx
    fin_cases hx <;> decide
  by_cases h2 : y = '<'
  · subst h2; simp only [entityOf] at hx
    norm_num at hx
    fin_cases hx <;> decide
  by_cases h3 : y = '>'
  · subst h3; simp only [entityOf] at hx
    norm_num at hx
    fin_cases hx <;> decide
  by_cases h4 : y = '"'
  · subst h4; simp only [entityOf] at hx
    norm_num at hx
    fin_cases hx <;> decide
  by_cases h5 : y = '\''
  · subst h5; simp only [entityOf] at hx
    norm_num at hx
    fin_cases hx <;> decide
  have hxy : x = y := by
    simp only [entityOf, if_neg h1, if_neg h2, if_neg h3, if_neg h4, if_neg h5] at hx
    simpa using hx
  subst hxy
  simp [h2, h3, h4, h5]

/-- C10: `escapeHtml` replaces every occurrence of the five HTML
metacharacters by its entity, ampersand first, so that the output equals
the single-pass entity expansion of the input (no double escaping) and
contains no literal `'<'`, `'>'`, `'"'` or `'\''`. -/
theorem C10_escapeHtml :
    ∀ s : String,
      escapeHtml s = ⟨s.data.flatMap entityOf⟩ ∧
      (escapeHtml s).data.all
        (fun x => !(x == '<') && !(x == '>') && !(x == '"') && !(x == '\'')) = true := by
  intro s
  constructor
  · unfold escapeHtml
    rw [escapeHtmlL_eq_flatMap]
  · refine List.all_eq_true.mpr ?_
    intro x hx
    have hx2 : x ∈ s.data.flatMap entityOf := by
      rw [show (escapeHtml s).data = escapeHtmlL s.data from rfl,
        escapeHtmlL_eq_flatMap] at hx
      exact hx
    obtain ⟨y, _, hmem⟩ := List.mem_flatMap.mp hx2
    exact entityOf_no_special y x hmem

/-! ## Claim C1 -/

/-- Counterexample to C1 as stated: with a new contact, empty form and
empty committed list, the pending email text `" a@b.c "` is non-empty
but fails the Validator (it contains spaces), so the claimed
characterization yields `false`; `checkForChanges` validates the
*trimmed* pending text and enables save. -/
theorem C1_counterexample :
    checkForChanges { initialState with pendingEmailText := " a@b.c " } = true ∧
    claimedHasChanges { initialState with pendingEmailText := " a@b.c " } = false :=
  ⟨by decide, by decide⟩

/-- C1 (amended): `checkForChanges` enables save iff the claimed
disjunction holds with the pending email text replaced by its trimmed
value; and reverting every field of an existing contact back to the
snapshot yields `false` provided the snapshot's name fields equal their
trimmed forms. -/
theorem C1_checkForChanges_amended :
    (∀ s : AppState, s.originalContact = none →
      (checkForChanges s = true ↔
        (¬ trimS s.firstNameVal = "" ∨ ¬ trimS s.lastNameVal = "" ∨
          ¬ s.currentEmailList = [] ∨
          (¬ trimS s.pendingEmailText = "" ∧
            isValidEmail (trimS s.pendingEmailText) = true)))) ∧
    (∀ (s : AppState) (o : Pristine), s.originalContact = some o →
      (checkForChanges s = true ↔
        (¬ trimS s.firstNameVal = o.firstName ∨
          ¬ trimS s.lastNameVal = o.lastName ∨
          ¬ s.currentEmailList.map EmailEntry.email = o.emails.map EmailEntry.email ∨
          (¬ trimS s.pendingEmailText = "" ∧
            isValidEmail (trimS s.pendingEmailText) = true)))) ∧
    (∀ (s : AppState) (o : Pristine),
      trimS o.firstName = o.firstName → trimS o.lastName = o.lastName →
      checkForChanges (revertedState s o) = false) := by
  refine ⟨?_, ?_, ?_⟩
  · intro s h
    simp only [checkForChanges, h]
    simp [Bool.or_eq_true, Bool.and_eq_true, List.length_pos, and_comm, or_assoc]
  · intro s o h
    simp only [checkForChanges, h]
    simp [Bool.or_eq_true, Bool.and_eq_true, and_comm, or_assoc]
  · intro s o hf hl
    have h0 : trimS "" = "" := rfl
    simp [checkForChanges, revertedState, hf, hl, h0]

/-- Witness for C1: the amended characterization and the revert rule
applied at concrete states. -/
theorem C1_checkForChanges_amended_witness :
    checkForChanges { initialState with firstNameVal := "X" } = true ∧
    checkForChanges { initialState with originalContact := some ⟨"A", "B", []⟩ } = true ∧
    checkForChanges (revertedState initialState ⟨"A", "B", []⟩) = false := by
  refine ⟨?_, ?_, ?_⟩
  · exact (C1_checkForChanges_amended.1 _ rfl).mpr (Or.inl (by decide))
  · exact (C1_checkForChanges_amended.2.1 _ ⟨"A", "B", []⟩ rfl).mpr (Or.inl (by decide))
  · exact C1_checkForChanges_amended.2.2 initialState ⟨"A", "B", []⟩ (by decide) (by decide)

/-! ## Claim C2 -/

theorem commitPending_fields (now : Nat) (s : AppState) :
    (commitPending now s).selectedContactId = s.selectedContactId ∧
    (commitPending now s).firstNameVal = s.firstNameVal ∧
    (commitPending now s).lastNameVal = s.lastNameVal ∧
    (commitPending now s).originalContact = s.originalContact ∧
    (commitPending now s).contacts = s.contacts := by
  by_cases hc : (!(trimS s.pendingEmailText == "") &&
      isValidEmail (trimS s.pendingEmailText)) = true
  · simp [commitPending, hc]
  · simp [commitPending, hc]

theorem saveClick_req (now : Nat) (s : AppState) (resp : SaveResponse) :
    (saveClick now s resp).2.2 =
      ⟨(getFormData (commitPending now s)).id.isSome,
        (getFormData (commitPending now s)).id,
        getFormData (commitPending now s)⟩ := by
  cases resp <;> rfl

theorem commitPending_appends {now : Nat} {s : AppState}
    (hne : ¬ s.pendingEmailText = "")
    (hval : isValidEmail s.pendingEmailText = true) :
    (commitPending now s).currentEmailList =
      s.currentEmailList ++ [⟨now, s.pendingEmailText⟩] := by
  have ht : trimS s.pendingEmailText = s.pendingEmailText :=
    isValidEmail_trim hval
  have hcond : (!(s.pendingEmailText == "") &&
      isValidEmail s.pendingEmailText) = true := by
    simp [hne, hval]
  simp [commitPending, ht, hcond]

/-- C2: if the pending email text is non-empty and valid it is appended
to the committed email list before submission; the submitted payload
carries the `id` field iff an existing contact is selected (so the
request is a PUT for that id, else a POST), its names are the trimmed
draft values and its emails are the committed list; `getFormData` alone
never commits the pending text. -/
theorem C2_save_submission :
    ∀ (now : Nat) (s : AppState) (resp : SaveResponse),
      (¬ s.pendingEmailText = "" → isValidEmail s.pendingEmailText = true →
        (commitPending now s).currentEmailList =
          s.currentEmailList ++ [⟨now, s.pendingEmailText⟩]) ∧
      ((saveClick now s resp).2.2.payload = getFormData (commitPending now s) ∧
        (saveClick now s resp).2.2.payload.id = s.selectedContactId ∧
        (saveClick now s resp).2.2.payload.firstName = trimS s.firstNameVal ∧
        (saveClick now s resp).2.2.payload.lastName = trimS s.lastNameVal ∧
        (saveClick now s resp).2.2.payload.emails =
          (commitPending now s).currentEmailList ∧
        ((saveClick now s resp).2.2.isPut = true ↔
          s.selectedContactId.isSome = true) ∧
        (saveClick now s resp).2.2.urlId = s.selectedContactId) ∧
      (getFormData s).emails = s.currentEmailList := by
  intro now s resp
  obtain ⟨hsel, hfn, hln, _, _⟩ := commitPending_fields now s
  refine ⟨fun hne hval => commitPending_appends hne hval, ?_, rfl⟩
  rw [saveClick_req]
  refine ⟨rfl, ?_, ?_, ?_, rfl, ?_, ?_⟩
  · show (getFormData (commitPending now s)).id = s.selectedContactId
    rw [show (getFormData (commitPending now s)).id =
      (commitPending now s).selectedContactId from rfl, hsel]
  · show trimS (commitPending now s).firstNameVal = trimS s.firstNameVal
    rw [hfn]
  · show trimS (commitPending now s).lastNameVal = trimS s.lastNameVal
    rw [hln]
  · show (getFormData (commitPending now s)).id.isSome = true ↔
      s.selectedContactId.isSome = true
    rw [show (getFormData (commitPending now s)).id =
      (commitPending now s).selectedContactId from rfl, hsel]
  · show (getFormData (commitPending now s)).id = s.selectedContactId
    rw [show (getFormData (commitPending now s)).id =
      (commitPending now s).selectedContactId from rfl, hsel]

/-- Witness for C2: a concrete existing-contact save with pending text
`"a@b.c"` commits it, and the request is a PUT for the selected id. -/
theorem C2_save_submission_witness :
    (commitPending 3
        { initialState with
          selectedContactId := some 2
          currentEmailList := [⟨1, "x@y.z"⟩]
          firstNameVal := " Ann "
          pendingEmailText := "a@b.c" }).currentEmailList =
      [⟨1, "x@y.z"⟩] ++ [⟨3, "a@b.c"⟩] ∧
    (saveClick 3
        { initialState with
          selectedContactId := some 2
          currentEmailList := [⟨1, "x@y.z"⟩]
          firstNameVal := " Ann "
          pendingEmailText := "a@b.c" }
        (SaveResponse.httpErr none)).2.2.isPut = true := by
  have h := C2_save_submission 3
    { initialState with
      selectedContactId := some 2
      currentEmailList := [⟨1, "x@y.z"⟩]
      firstNameVal := " Ann "
      pendingEmailText := "a@b.c" }
    (SaveResponse.httpErr none)
  exact ⟨h.1 (by decide) (by decide), h.2.1.2.2.2.2.2.1.mpr (by decide)⟩

/-! ## Claim C3 -/

/-- Counterexample to C3 as stated: the delete handler removes by the
clicked row's position, not by exact id match.  On a list with two
entries sharing id 5, clicking row 1 removes the second entry, while
exact-match removal of that row's local id removes the first. -/
theorem C3_counterexample :
    removeEmailAt [⟨5, "a@b.c"⟩, ⟨5, "d@e.f"⟩] 1 ≠
      removeEmailById [⟨5, "a@b.c"⟩, ⟨5, "d@e.f"⟩] 5 := by decide

theorem removeEmailAt_sublist (l : List EmailEntry) (i : Nat) :
    List.Sublist (removeEmailAt l i) l := by
  unfold removeEmailAt
  have h1 : List.Sublist (l.drop (i + 1)) (l.drop i) :=
    List.drop_sublist_drop_left l (Nat.le_succ i)
  have h2 := List.Sublist.append_left h1 (l.take i)
  rw [List.take_append_drop] at h2
  exact h2

/-- C3 (amended): the delete handler removes the entry at the clicked
row's render-time position; appending an email and deleting its row
restores the prior list; deletion at an out-of-range position is a
no-op; and when the list's local ids are pairwise distinct, positional
removal of row `i` coincides with exact-match removal of row `i`'s
local id. -/
theorem C3_removal_positional :
    (∀ (l : List EmailEntry) (now : Nat) (e : String),
      removeEmailAt (addEmail l now e) l.length = l) ∧
    (∀ (l : List EmailEntry) (i : Nat), l.length ≤ i → removeEmailAt l i = l) ∧
    (∀ (l : List EmailEntry) (i : Nat) (h : i < l.length), nodupIds l →
      removeEmailAt l i = removeEmailById l (l.get ⟨i, h⟩).id) := by
  refine ⟨?_, ?_, ?_⟩
  · intro l now e
    unfold removeEmailAt addEmail
    rw [List.take_left l [⟨now, e⟩],
      List.drop_of_length_le (by simp), List.append_nil]
  · intro l i h
    unfold removeEmailAt
    rw [List.take_of_length_le h, List.drop_of_length_le (Nat.le_succ_of_le h),
      List.append_nil]
  · intro l
    induction l with
    | nil => intro i h; exact absurd h (by simp)
    | cons y ys ih =>
      intro i h hnd
      cases i with
      | zero => simp [removeEmailAt, removeEmailById]
      | succ j =>
        have hj : j < ys.length := by simpa using h
        have hnd2 : y.id ∉ ys.map EmailEntry.id ∧ nodupIds ys := by
          unfold nodupIds at hnd
          simpa [List.nodup_cons] using hnd
        have hne : ¬ (y.id == (ys.get ⟨j, hj⟩).id) = true := by
          intro hbeq
          have heq : y.id = (ys.get ⟨j, hj⟩).id := by simpa using hbeq
          exact hnd2.1
            (heq ▸ List.mem_map_of_mem EmailEntry.id (List.get_mem ys j hj))
        show y :: removeEmailAt ys j =
          (y :: ys).eraseP (fun e => e.id == (ys.get ⟨j, hj⟩).id)
        rw [List.eraseP_cons y ys]
        have hfa : (y.id == (ys.get ⟨j, hj⟩).id) = false := by
          simpa using hne
        simp only [hfa, cond_false]
        rw [ih j hj hnd2.2]
        rfl

/-- Witness for C3: the round trip, the out-of-range no-op, and the
agreement with exact-match removal on a concrete unique-id list. -/
theorem C3_removal_positional_witness :
    removeEmailAt (addEmail [⟨1, "x@y.z"⟩] 9 "a@b.c") 1 = [⟨1, "x@y.z"⟩] ∧
    removeEmailAt [⟨1, "x@y.z"⟩] 5 = [⟨1, "x@y.z"⟩] ∧
    removeEmailAt [⟨1, "x@y.z"⟩, ⟨2, "a@b.c"⟩] 0 =
      removeEmailById [⟨1, "x@y.z"⟩, ⟨2, "a@b.c"⟩] 1 :=
  ⟨C3_removal_positional.1 [⟨1, "x@y.z"⟩] 9 "a@b.c",
    C3_removal_positional.2.1 [⟨1, "x@y.z"⟩] 5 (by decide),
    C3_removal_positional.2.2 [⟨1, "x@y.z"⟩, ⟨2, "a@b.c"⟩] 0 (by decide)
      (by decide)⟩

/-! ## Claim C9 -/

/-- Counterexample to C9 as stated: two Enter commits of valid emails
whose `Date.now()` readings coincide (the clock has millisecond
granularity) put two entries with the same local id 7 into the list. -/
theorem C9_counterexample :
    ¬ nodupIds (runEmail []
      [EmailOp.enterCommit 7 "a@b.c", EmailOp.enterCommit 7 "d@e.f"]) := by
  decide

theorem nodupIds_commitText {t now : Nat} {l : List EmailEntry}
    (htn : t ≤ now) (hnd : nodupIds l) (hbound : ∀ e ∈ l, e.id < t)
    (text : String) :
    nodupIds (commitText l now text) ∧
      ∀ e ∈ commitText l now text, e.id < now + 1 := by
  by_cases hc : (!(trimS text == "") && isValidEmail (trimS text)) = true
  · have hstep : commitText l now text = l ++ [⟨now, trimS text⟩] := by
      simp [commitText, addEmail, hc]
    rw [hstep]
    constructor
    · unfold nodupIds
      rw [List.map_append]
      refine List.Nodup.append hnd (List.nodup_singleton now) ?_
      intro a ha hmem
      have hanow : a = now := by simpa using hmem
      obtain ⟨e, he, hea⟩ := List.mem_map.mp ha
      have : e.id < t := hbound e he
      rw [hea, hanow] at this
      exact absurd htn (Nat.not_le_of_lt this)
    · intro e he
      rcases List.mem_append.mp he with h | h
      · exact Nat.lt_of_lt_of_le (hbound e h) (Nat.le_succ_of_le htn)
      · have : e = ⟨now, trimS text⟩ := by simpa using h
        rw [this]
        exact Nat.lt_succ_self now
  · have hstep : commitText l now text = l := by
      simp [commitText, addEmail, hc]
    rw [hstep]
    exact ⟨hnd, fun e he =>
      Nat.lt_of_lt_of_le (hbound e he) (Nat.le_succ_of_le htn)⟩

theorem nodupIds_runEmail :
    ∀ (ops : List EmailOp) (t : Nat) (l : List EmailEntry),
      opsOk t ops = true → nodupIds l → (∀ e ∈ l, e.id < t) →
      nodupIds (runEmail l ops) := by
  intro ops
  induction ops with
  | nil => intro t l _ hnd _; exact hnd
  | cons op rest ih =>
    intro t l hok hnd hbound
    cases op with
    | select loaded =>
      simp only [opsOk, Bool.and_eq_true] at hok
      obtain ⟨⟨h1, h2⟩, h3⟩ := hok
      show nodupIds (runEmail loaded rest)
      refine ih t loaded h3 (of_decide_eq_true h1) ?_
      intro e he
      exact of_decide_eq_true (List.all_eq_true.mp h2 e he)
    | enterCommit now text =>
      simp only [opsOk, Bool.and_eq_true] at hok
      obtain ⟨h1, h2⟩ := hok
      obtain ⟨hnd2, hb2⟩ :=
        nodupIds_commitText (of_decide_eq_true h1) hnd hbound text
      exact ih (now + 1) (commitText l now text) h2 hnd2 hb2
    | saveCommit now text =>
      simp only [opsOk, Bool.and_eq_true] at hok
      obtain ⟨h1, h2⟩ := hok
      obtain ⟨hnd2, hb2⟩ :=
        nodupIds_commitText (of_decide_eq_true h1) hnd hbound text
      exact ih (now + 1) (commitText l now text) h2 hnd2 hb2
    | removeAt i =>
      simp only [opsOk] at hok
      have hsub := removeEmailAt_sublist l i
      refine ih t (removeEmailAt l i) hok ?_ ?_
      · exact List.Nodup.sublist (hsub.map EmailEntry.id) hnd
      · intro e he
        exact hbound e (hsub.subset he)

/-- C9 (amended): starting from the empty draft list, any sequence of
selections, Enter commits, save-time commits and row removals keeps the
local ids pairwise distinct, provided the sequence is well timed: each
commit's `Date.now()` reading is at least the running clock and strictly
before the next, and every selected contact's emails carry distinct ids
minted before the current clock. -/
theorem C9_unique_ids_amended :
    ∀ (ops : List EmailOp) (t : Nat), opsOk t ops = true →
      nodupIds (runEmail [] ops) := by
  intro ops t hok
  refine nodupIds_runEmail ops t [] hok ?_ ?_
  · exact List.nodup_nil
  · intro e he
    exact absurd he (List.not_mem_nil e)

/-- Witness for C9: a concrete well-timed select / commit / remove
sequence keeps the ids distinct. -/
theorem C9_unique_ids_amended_witness :
    nodupIds (runEmail []
      [EmailOp.select [⟨1, "x@y.z"⟩], EmailOp.enterCommit 5 "a@b.c",
        EmailOp.removeAt 0]) :=
  C9_unique_ids_amended
    [EmailOp.select [⟨1, "x@y.z"⟩], EmailOp.enterCommit 5 "a@b.c",
      EmailOp.removeAt 0] 2 (by decide)

/-! ## Claim C5 -/

theorem insertLe_perm (le : Contact → Contact → Bool) (x : Contact) :
    ∀ l : List Contact, List.Perm (insertLe le x l) (x :: l) := by
  intro l
  induction l with
  | nil => exact List.Perm.refl _
  | cons y ys ih =>
    have heq : insertLe le x (y :: ys) =
        if le x y = true then x :: y :: ys else y :: insertLe le x ys := rfl
    by_cases h : le x y = true
    · rw [heq, if_pos h]
    · rw [heq, if_neg h]
      exact List.Perm.trans (List.Perm.cons y ih) (List.Perm.swap x y ys)

theorem sortContacts_perm (le : Contact → Contact → Bool) :
    ∀ l : List Contact, List.Perm (sortContacts le l) l := by
  intro l
  induction l with
  | nil => exact List.Perm.refl _
  | cons x xs ih =>
    unfold sortContacts
    exact List.Perm.trans (insertLe_perm le x _) (List.Perm.cons x ih)

theorem pairwise_insertLe {le : Contact → Contact → Bool}
    (htot : ∀ a b, le a b = true ∨ le b a = true)
    (htrans : ∀ a b c, le a b = true → le b c = true → le a c = true)
    (x : Contact) :
    ∀ {l : List Contact}, List.Pairwise (fun a b => le a b = true) l →
      List.Pairwise (fun a b => le a b = true) (insertLe le x l) := by
  intro l
  induction l with
  | nil => intro _; exact List.pairwise_singleton _ x
  | cons y ys ih =>
    intro hp
    obtain ⟨hy, hys⟩ := List.pairwise_cons.mp hp
    unfold insertLe
    by_cases h : le x y = true
    · rw [if_pos h]
      refine List.pairwise_cons.mpr ⟨?_, hp⟩
      intro b hb
      rcases List.mem_cons.mp hb with hb | hb
      · rw [hb]; exact h
      · exact htrans x y b h (hy b hb)
    · rw [if_neg h]
      have hyx : le y x = true := (htot x y).resolve_left h
      refine List.pairwise_cons.mpr ⟨?_, ih hys⟩
      intro b hb
      have hb2 : b ∈ x :: ys := (insertLe_perm le x ys).mem_iff.mp hb
      rcases List.mem_cons.mp hb2 with hb2 | hb2
      · rw [hb2]; exact hyx
      · exact hy b hb2

theorem pairwise_sortContacts {le : Contact → Contact → Bool}
    (htot : ∀ a b, le a b = true ∨ le b a = true)
    (htrans : ∀ a b c, le a b = true → le b c = true → le a c = true) :
    ∀ l : List Contact,
      List.Pairwise (fun a b => le a b = true) (sortContacts le l) := by
  intro l
  induction l with
  | nil => exact List.Pairwise.nil
  | cons x xs ih =>
    unfold sortContacts
    exact pairwise_insertLe htot htrans x ih

/-- C5: the visible-contact derivation keeps exactly the contacts whose
lowercased "firstName lastName" concatenation or one of whose lowercased
emails contains the lowercased query (every contact when the query is
empty), and always sorts the kept contacts by `lastName` ascending under
the locale comparator (modelled as an arbitrary total, transitive
boolean comparison `le`); the derivation is a pure function of its
inputs.  The spec's example holds under code-point order: last names
Zed and Adams with the empty query yield [Adams, Zed], and query "zed"
keeps Zed only. -/
theorem C5_visibleContacts :
    (∀ (le : String → String → Bool),
      (∀ a b, le a b = true ∨ le b a = true) →
      (∀ a b c, le a b = true → le b c = true → le a c = true) →
      ∀ (contacts : List Contact) (query : String),
        List.Perm (visibleContacts le contacts query)
          (contacts.filter (fun c => query == "" || matchesQuery query c)) ∧
        List.Pairwise (fun a b => le a.lastName b.lastName = true)
          (visibleContacts le contacts query)) ∧
    visibleContacts lexLeS
        [⟨some 1, "A", "Zed", []⟩, ⟨some 2, "B", "Adams", []⟩] "" =
      [⟨some 2, "B", "Adams", []⟩, ⟨some 1, "A", "Zed", []⟩] ∧
    visibleContacts lexLeS
        [⟨some 1, "A", "Zed", []⟩, ⟨some 2, "B", "Adams", []⟩] "zed" =
      [⟨some 1, "A", "Zed", []⟩] := by
  refine ⟨?_, by decide, by decide⟩
  intro le htot htrans contacts query
  constructor
  · have hperm := sortContacts_perm
      (fun a b => le a.lastName b.lastName) (filterContacts contacts query)
    refine List.Perm.trans hperm ?_
    by_cases hq : query = ""
    · subst hq
      have h1 : filterContacts contacts "" = contacts := by
        simp [filterContacts]
      have h2 : contacts.filter
          (fun c : Contact => ("" == "" : Bool) || matchesQuery "" c) =
          contacts := by
        simp
      rw [h1, h2]
    · have h1 : filterContacts contacts query =
          contacts.filter (matchesQuery query) := by
        simp [filterContacts, hq]
      have hq2 : (query == "" : Bool) = false := by
        simp [hq]
      rw [h1]
      simp only [hq2, Bool.false_or]
      exact List.Perm.refl _
  · exact pairwise_sortContacts
      (fun a b => htot a.lastName b.lastName)
      (fun a b c => htrans a.lastName b.lastName c.lastName)
      (filterContacts contacts query)

/-- Witness for C5: the general part applied with the trivial (total,
transitive) comparator at a concrete list and query. -/
theorem C5_visibleContacts_witness :
    List.Perm
      (visibleContacts (fun _ _ => true) [⟨some 1, "A", "Zed", []⟩] "q")
      ([⟨some 1, "A", "Zed", []⟩].filter
        (fun c => ("q" == "" : Bool) || matchesQuery "q" c)) :=
  (C5_visibleContacts.1 (fun _ _ => true) (fun _ _ => Or.inl rfl)
    (fun _ _ _ _ _ => rfl) [⟨some 1, "A", "Zed", []⟩] "q").1

/-! ## Claim C6 -/

/-- Counterexample to C6 as stated: when the server's returned contact
carries a firstName that is not trim-invariant (here `" A "`), the
post-save `checkForChanges` compares the trimmed input `"A"` against
the snapshot value `" A "` and reports changes — hasChanges is *not*
false immediately after the successful save. -/
theorem C6_counterexample :
    checkForChanges
      (saveClick 3 { initialState with isNewContact := true, firstNameVal := "A" }
        (SaveResponse.ok ⟨some 7, " A ", "B", []⟩
          [⟨some 7, " A ", "B", []⟩])).1 = true := by decide

/-- C6 (amended): on a successful save the contact list is replaced by
the refetched list, the server-returned contact is re-selected, draft
and snapshot are replaced by the returned values and no error is
surfaced; hasChanges is false immediately afterwards provided the
returned name fields equal their trimmed forms (as when the server
echoes the trimmed payload). -/
theorem C6_save_success_amended :
    ∀ (now : Nat) (s : AppState) (c : Contact) (newList : List Contact),
      (saveClick now s (SaveResponse.ok c newList)).1.contacts = newList ∧
      (saveClick now s (SaveResponse.ok c newList)).1.selectedContactId = c.id ∧
      (saveClick now s (SaveResponse.ok c newList)).1.originalContact =
        some ⟨c.firstName, c.lastName, c.emails⟩ ∧
      (saveClick now s (SaveResponse.ok c newList)).1.firstNameVal = c.firstName ∧
      (saveClick now s (SaveResponse.ok c newList)).1.lastNameVal = c.lastName ∧
      (saveClick now s (SaveResponse.ok c newList)).1.currentEmailList = c.emails ∧
      (saveClick now s (SaveResponse.ok c newList)).1.pendingEmailText = "" ∧
      (saveClick now s (SaveResponse.ok c newList)).2.1 = none ∧
      (trimS c.firstName = c.firstName → trimS c.lastName = c.lastName →
        checkForChanges (saveClick now s (SaveResponse.ok c newList)).1 = false) := by
  intro now s c newList
  refine ⟨rfl, rfl, rfl, rfl, rfl, rfl, rfl, rfl, ?_⟩
  intro hf hl
  show checkForChanges
    (selectContact { commitPending now s with contacts := newList } c) = false
  have h0 : trimS "" = "" := rfl
  simp [checkForChanges, selectContact, hf, hl, h0]

/-- Witness for C6: a concrete new-contact save re-selects the
server-assigned id 7 and disables save. -/
theorem C6_save_success_amended_witness :
    (saveClick 3 { initialState with firstNameVal := "Ann" }
      (SaveResponse.ok ⟨some 7, "Ann", "Lee", []⟩
        [⟨some 7, "Ann", "Lee", []⟩])).1.selectedContactId = some 7 ∧
    checkForChanges
      (saveClick 3 { initialState with firstNameVal := "Ann" }
        (SaveResponse.ok ⟨some 7, "Ann", "Lee", []⟩
          [⟨some 7, "Ann", "Lee", []⟩])).1 = false := by
  have h := C6_save_success_amended 3 { initialState with firstNameVal := "Ann" }
    ⟨some 7, "Ann", "Lee", []⟩ [⟨some 7, "Ann", "Lee", []⟩]
  exact ⟨h.2.1, h.2.2.2.2.2.2.2.2 (by decide) (by decide)⟩

/-! ## Claim C7 -/

/-- Counterexample to C7 as stated: on a failed delete whose response
body carries the server-provided message `"nope"`, the code surfaces
the fixed string `"Failed to delete contact"` — the server message is
never used for deletes. -/
theorem C7_counterexample :
    (deleteClick { initialState with selectedContactId := some 4 } true
      (DeleteResponse.httpErr (some "nope"))).2.1 =
      some "Failed to delete contact" := by decide

/-- C7 (amended): failed saves surface the server's `error` field when
present, else the fixed save fallback; network failures surface the
thrown error's own message; failed deletes always surface the fixed
delete fallback, ignoring the body; in every failure case the draft,
snapshot and selection are exactly the submitted ones; delete requires
confirmation, and declining it changes nothing and issues no DELETE
request. -/
theorem C7_failure_handling_amended :
    (∀ (now : Nat) (s : AppState) (errField : Option String),
      (saveClick now s (SaveResponse.httpErr errField)).1 = commitPending now s ∧
      (saveClick now s (SaveResponse.httpErr errField)).2.1 =
        some (errField.getD "Failed to save contact")) ∧
    (∀ (now : Nat) (s : AppState) (msg : String),
      (saveClick now s (SaveResponse.netErr msg)).1 = commitPending now s ∧
      (saveClick now s (SaveResponse.netErr msg)).2.1 = some msg) ∧
    (∀ (now : Nat) (s : AppState),
      (commitPending now s).selectedContactId = s.selectedContactId ∧
      (commitPending now s).firstNameVal = s.firstNameVal ∧
      (commitPending now s).lastNameVal = s.lastNameVal ∧
      (commitPending now s).originalContact = s.originalContact ∧
      (commitPending now s).contacts = s.contacts) ∧
    (∀ (s : AppState) (resp : DeleteResponse),
      deleteClick s false resp = (s, none, none)) ∧
    (∀ (s : AppState) (cid : Nat) (errField : Option String),
      s.selectedContactId = some cid →
      deleteClick s true (DeleteResponse.httpErr errField) =
        (s, some "Failed to delete contact", some cid)) ∧
    (∀ (s : AppState) (cid : Nat) (msg : String),
      s.selectedContactId = some cid →
      deleteClick s true (DeleteResponse.netErr msg) =
        (s, some msg, some cid)) := by
  refine ⟨fun now s e => ⟨rfl, rfl⟩, fun now s m => ⟨rfl, rfl⟩,
    fun now s => commitPending_fields now s, ?_, ?_, ?_⟩
  · intro s resp
    cases h : s.selectedContactId with
    | none => simp [deleteClick, h]
    | some cid => simp [deleteClick, h]
  · intro s cid e h
    simp [deleteClick, h]
  · intro s cid m h
    simp [deleteClick, h]

/-- Witness for C7: a declined delete is a no-op with no request, and a
network-failed delete surfaces the thrown message with the state kept. -/
theorem C7_failure_handling_amended_witness :
    deleteClick initialState false (DeleteResponse.httpErr none) =
      (initialState, none, none) ∧
    deleteClick { initialState with selectedContactId := some 4 } true
      (DeleteResponse.netErr "network down") =
      ({ initialState with selectedContactId := some 4 },
        some "network down", some 4) := by
  have h := C7_failure_handling_amended
  exact ⟨h.2.2.2.1 initialState (DeleteResponse.httpErr none),
    h.2.2.2.2.2 { initialState with selectedContactId := some 4 } 4
      "network down" rfl⟩

end ContactApp
